import Mathlib

/-!
Shallow embedding of the Markov-chain analysis core of the rmm-simulator
repository (src/modules/markov_chain.py, src/modules/advanced_markov.py,
src/modules/timeframe_analysis.py), together with proofs settling the
frozen claims about it.

Conventions of the embedding:
* numpy float arrays are modelled by functions into `ℚ` (exact rational
  arithmetic) except where the source computes logarithms or square roots,
  which are modelled in `ℝ`;
* state labels (the `T.._V.._R..` strings of the source) are modelled by an
  abstract linearly ordered type `α`, so `sorted(list(set(...)))` becomes
  sort-of-dedup over `α`;
* a numpy matrix indexed by the state alphabet is modelled as the list of
  state names together with an entry function `α → α → ℚ`;
* `raise ValueError` is modelled by an `Option` result (`none` = raised);
* the numerical collaborators `np.linalg.eig` and `np.linalg.solve` are
  modelled as explicit oracle arguments (`eig`, `solve`): the surrounding
  code is embedded exactly, and theorems that depend on the oracle's output
  state the characterising property of that output as a hypothesis.
-/

variable {α : Type} [LinearOrder α]

/-! ### TransitionEstimator: CryptoMarkovChain.build_transition_matrix
(src/modules/markov_chain.py lines 100-129).  The sequence of observed
state labels is `seq` (`list(self.states.values())` in the source); the
alphabet is `sorted(list(set(...)))`; transitions are counted over
consecutive pairs and each row is divided by its sum when positive. -/

/-- `self.state_names = sorted(list(set(states.values())))`. -/
def state_names (seq : List α) : List α :=
  seq.dedup.insertionSort (· ≤ ·)

/-- The consecutive pairs `(s[i], s[i+1])` of the sequence. -/
def adj_pairs (seq : List α) : List (α × α) :=
  seq.zip seq.tail

/-- The transition count `C[a][b]` accumulated by the counting loop. -/
def trans_count (seq : List α) (a b : α) : ℕ :=
  (adj_pairs seq).countP (fun p => decide (p = (a, b)))

/-- The row sum of the count matrix at `a` (number of observed outgoing
transitions of `a`). -/
def row_total (seq : List α) (a : α) : ℕ :=
  (adj_pairs seq).countP (fun p => decide (p.1 = a))

/-- Entry `(a, b)` of the matrix returned by `build_transition_matrix`:
counts normalized row-wise, rows with zero sum left all-zero. -/
def transition_matrix (seq : List α) (a b : α) : ℚ :=
  if 0 < row_total seq a then (trans_count seq a b : ℚ) / (row_total seq a : ℚ) else 0

/-- The sum of row `a` of the transition matrix over the alphabet. -/
def row_sum (seq : List α) (a : α) : ℚ :=
  ((state_names seq).map (transition_matrix seq a)).sum

/-! ### PredictorEngine: CryptoMarkovChain.predict_next_states
(src/modules/markov_chain.py lines 131-171).  A probability vector over the
alphabet `ns` is a function `α → ℚ`; one step is `state_probs @ P`. -/

/-- The initial probability vector: 1.0 at the starting state. -/
def init_dist (start : α) : α → ℚ :=
  fun a => if a = start then 1 else 0

/-- One forward-propagation step `state_probs @ transition_matrix`
(column `b` of the product). -/
def step_vec (ns : List α) (P : α → α → ℚ) (v : α → ℚ) : α → ℚ :=
  fun b => (ns.map (fun a => v a * P a b)).sum

/-- The probability vector after `k` multiplications by the matrix. -/
def step_dist (ns : List α) (P : α → α → ℚ) (start : α) : ℕ → α → ℚ
  | 0 => init_dist start
  | k + 1 => step_vec ns P (step_dist ns P start k)

/-- The total mass of a probability vector over the alphabet. -/
def dist_sum (ns : List α) (v : α → ℚ) : ℚ :=
  (ns.map v).sum

/-- One forecast record appended per step by the prediction loop. -/
structure Prediction (α : Type) where
  step : ℕ
  state : α
  probability : ℚ
  all_probabilities : List (α × ℚ)

/-- `np.argmax` over the remaining names, keeping the earliest maximum. -/
def argmax_from (v : α → ℚ) : List α → α → α
  | [], best => best
  | a :: rest, best => argmax_from v rest (if v best < v a then a else best)

/-- `np.argmax` over a name list (first index attaining the maximum). -/
def argmax_state (v : α → ℚ) : List α → Option α
  | [] => none
  | a :: rest => some (argmax_from v rest a)

/-- The record built at one step of the prediction loop. -/
def mk_prediction (ns : List α) (k : ℕ) (v : α → ℚ) (dflt : α) : Prediction α :=
  let m := (argmax_state v ns).getD dflt
  { step := k
    state := m
    probability := v m
    all_probabilities := ns.map (fun a => (a, v a)) }

/-- The list of records produced by the loop `for step in range(1, steps+1)`. -/
def predict_records (ns : List α) (P : α → α → ℚ) (start : α) (steps : ℕ) :
    List (Prediction α) :=
  (List.range steps).map (fun k => mk_prediction ns (k + 1) (step_dist ns P start (k + 1)) start)

/-- `predict_next_states` on a built matrix: `none` models the
`ValueError` raised when the starting state is not in the alphabet. -/
def predict_next_states (ns : List α) (P : α → α → ℚ) (start : α) (steps : ℕ) :
    Option (List (Prediction α)) :=
  if start ∈ ns then some (predict_records ns P start steps) else none

/-- The total of a record's full probability vector. -/
def rec_sum (r : Prediction α) : ℚ :=
  (r.all_probabilities.map Prod.snd).sum

/-- The mass a vector carries on states whose matrix row is all zero
(states observed with no outgoing transition). -/
def zero_row_mass (seq : List α) (v : α → ℚ) : ℚ :=
  (((state_names seq).filter (fun a => row_total seq a = 0)).map v).sum

/-! ### GraphAnalyzer: AdvancedMarkovAnalysis.find_communication_classes /
find_absorption_states (src/modules/advanced_markov.py lines 60-110).
The DFS recursion of the source is embedded with explicit fuel; every call
consumes one unvisited node, so fuel `ns.length` never runs out. -/

/-- The source's `dfs(node, current_class)`: mark visited, append to the
class, then recurse into each yet-unvisited neighbour in index order,
where `i` and `j` are adjacent iff `P[i][j] > 0 or P[j][i] > 0`. -/
def dfs_collect (ns : List α) (P : α → α → ℚ) : ℕ → α → List α × List α → List α × List α
  | 0, _, vc => vc
  | fuel + 1, node, vc =>
    let st0 := (vc.1 ++ [node], vc.2 ++ [node])
    ns.foldl
      (fun st j =>
        if j ∉ st.1 ∧ (0 < P node j ∨ 0 < P j node) then dfs_collect ns P fuel j st else st)
      st0

/-- `find_communication_classes`: run the DFS from every yet-unvisited
state, collecting each traversal's visited set as one class. -/
def find_communication_classes (ns : List α) (P : α → α → ℚ) : List (List α) :=
  (ns.foldl
      (fun (st : List α × List (List α)) i =>
        if i ∈ st.1 then st
        else
          let vc := dfs_collect ns P ns.length i (st.1, [])
          (vc.1, st.2 ++ [vc.2]))
      ([], [])).2

/-- `find_absorption_states`: the states with `P[i][i] == 1.0` exactly. -/
def find_absorption_states (ns : List α) (P : α → α → ℚ) : List α :=
  ns.filter (fun i => P i i = 1)

/-! ### HittingTimeSolver: AdvancedMarkovAnalysis.calculate_hitting_times
(src/modules/advanced_markov.py lines 112-152).  The direct path builds
`A = I - P` with target rows replaced by unit rows and `b = 1` with target
entries zeroed, and calls `np.linalg.solve` (the `solve` oracle; `none`
models the `LinAlgError` on a singular system).  The fallback path is the
source's fixed-point iteration, embedded exactly: `new_times = np.ones(n)`
and only non-target entries are overwritten. -/

/-- The coefficient matrix after the target-row rewrite. -/
def hitting_A (P : α → α → ℚ) (targets : List α) (i j : α) : ℚ :=
  if i ∈ targets then (if j = i then 1 else 0)
  else (if i = j then 1 else 0) - P i j

/-- The right-hand side after zeroing target entries. -/
def hitting_b (targets : List α) (i : α) : ℚ :=
  if i ∈ targets then 0 else 1

/-- `h` solves the linear system of the direct path. -/
def solves_hitting (ns : List α) (P : α → α → ℚ) (targets : List α) (h : α → ℚ) : Prop :=
  ∀ i ∈ ns, (ns.map (fun j => hitting_A P targets i j * h j)).sum = hitting_b targets i

/-- One iteration of the fallback: `new_times = np.ones(n)`, then
`new_times[i] = 1 + np.sum(P[i, :] * hitting_times)` for `i` outside the
target set — target entries keep the value 1 from `np.ones`. -/
def fallback_step (ns : List α) (P : α → α → ℚ) (targets : List α) (h : α → ℚ) : α → ℚ :=
  fun i => if i ∈ targets then 1 else 1 + (ns.map (fun j => P i j * h j)).sum

/-- `np.allclose(u, v, atol=1e-6)` with numpy's default `rtol=1e-5`:
`|u - v| <= atol + rtol * |v|` entrywise. -/
def allclose_vec (ns : List α) (u v : α → ℚ) : Prop :=
  ∀ a ∈ ns, |u a - v a| ≤ 1 / 1000000 + 1 / 100000 * |v a|

instance (ns : List α) (u v : α → ℚ) : Decidable (allclose_vec ns u v) :=
  inferInstanceAs (Decidable (∀ a ∈ ns, |u a - v a| ≤ 1 / 1000000 + 1 / 100000 * |v a|))

/-- The fallback loop: up to 1000 iterations, stopping (and returning the
previous iterate) once two successive iterates are allclose. -/
def fallback_loop (ns : List α) (P : α → α → ℚ) (targets : List α) : ℕ → (α → ℚ) → α → ℚ
  | 0, h => h
  | k + 1, h =>
    let nw := fallback_step ns P targets h
    if allclose_vec ns h nw then h else fallback_loop ns P targets k nw

/-- The value returned on the singular-system path: 1000 capped iterations
from `hitting_times = np.zeros(n)`. -/
def hitting_times_fallback (ns : List α) (P : α → α → ℚ) (targets : List α) : α → ℚ :=
  fallback_loop ns P targets 1000 (fun _ => 0)

/-- `calculate_hitting_times`: direct solve, falling back to the iteration
when the system is singular. -/
def calculate_hitting_times (solve : (α → α → ℚ) → (α → ℚ) → Option (α → ℚ))
    (ns : List α) (P : α → α → ℚ) (targets : List α) : α → ℚ :=
  match solve (hitting_A P targets) (hitting_b targets) with
  | some h => h
  | none => hitting_times_fallback ns P targets

/-! ### StationaryAnalyzer: AdvancedMarkovAnalysis.analyze_stationarity
(src/modules/advanced_markov.py lines 22-58) and the identical
TimeframeAnalysis._analyze_stationarity (src/modules/timeframe_analysis.py
lines 73-96).  `np.linalg.eig(P.T)` is the `eig` oracle; the code then
takes the element-wise absolute value of the selected eigenvector and
renormalizes, and computes `-np.sum(pi * np.log(pi + 1e-10))`. -/

/-- `P.T @ v` over the alphabet (the eigen-equation's left side). -/
noncomputable def t_mul_vec (ns : List α) (P : α → α → ℚ) (v : α → ℝ) : α → ℝ :=
  fun a => (ns.map (fun b => (P b a : ℝ) * v b)).sum

/-- `np.abs(vector) / np.sum(np.abs(vector))`. -/
noncomputable def stationary_vector (ns : List α) (v : α → ℝ) : α → ℝ :=
  fun a => |v a| / ((ns.map (fun b => |v b|)).sum)

/-- `-np.sum(pi * np.log(pi + 1e-10))`. -/
noncomputable def entropy_of (ns : List α) (pi : α → ℝ) : ℝ :=
  -((ns.map (fun a => pi a * Real.log (pi a + 1e-10))).sum)

/-! ### The mutable objects, threaded explicitly (for the frame claim).
`CryptoMarkovChain` and `AdvancedMarkovAnalysis` hold mutable fields
(`self.transition_matrix`, `self.stationary_distribution`, ...); each
method below returns the updated object together with its result, so any
field write the source performs is visible in the returned state. -/

/-- The fields of `CryptoMarkovChain` the analysis methods touch. -/
structure ChainState (α : Type) where
  state_names : List α
  transition_matrix : Option (α → α → ℚ)

/-- The fields of `AdvancedMarkovAnalysis`: the wrapped chain plus the
three cached results the methods write. -/
structure AnalysisState (α : Type) where
  chain : ChainState α
  stationary_distribution : Option (List ℝ)
  absorption_states : Option (List α)
  communication_classes : Option (List (List α))

/-- `analyze_stationarity` as a state transformer: computes the stationary
vector and entropy, writes the `stationary_distribution` cache.  `none`
models the `ValueError` when no matrix is built. -/
noncomputable def analyze_stationarity_m (eig : (α → α → ℚ) → α → ℝ)
    (s : AnalysisState α) : AnalysisState α × Option (List ℝ × ℝ) :=
  match s.chain.transition_matrix with
  | none => (s, none)
  | some P =>
    let ns := s.chain.state_names
    let sv := stationary_vector ns (eig P)
    ({ s with stationary_distribution := some (ns.map sv) },
      some (ns.map sv, entropy_of ns sv))

/-- `find_absorption_states` as a state transformer (writes its cache). -/
def find_absorption_states_m (s : AnalysisState α) : AnalysisState α × Option (List α) :=
  match s.chain.transition_matrix with
  | none => (s, none)
  | some P =>
    let r := find_absorption_states s.chain.state_names P
    ({ s with absorption_states := some r }, some r)

/-- `find_communication_classes` as a state transformer (writes its cache). -/
def find_communication_classes_m (s : AnalysisState α) :
    AnalysisState α × Option (List (List α)) :=
  match s.chain.transition_matrix with
  | none => (s, none)
  | some P =>
    let r := find_communication_classes s.chain.state_names P
    ({ s with communication_classes := some r }, some r)

/-- `calculate_hitting_times` as a state transformer: the source builds the
fresh arrays `A` and `b` and writes only into those, caching nothing. -/
def calculate_hitting_times_m (solve : (α → α → ℚ) → (α → ℚ) → Option (α → ℚ))
    (targets : List α) (s : AnalysisState α) : AnalysisState α × Option (α → ℚ) :=
  match s.chain.transition_matrix with
  | none => (s, none)
  | some P => (s, some (calculate_hitting_times solve s.chain.state_names P targets))

/-- `predict_next_states` as a state transformer on the chain object. -/
def predict_next_states_m (c : ChainState α) (start : α) (steps : ℕ) :
    ChainState α × Option (List (Prediction α)) :=
  match c.transition_matrix with
  | none => (c, none)
  | some P => (c, predict_next_states c.state_names P start steps)

/-! ### StateEncoder: CryptoMarkovChain.define_states
(src/modules/markov_chain.py lines 40-98).  A possibly-missing indicator
reading (NaN) is modelled by `Option ℚ` (`none` = NaN).  Every comparison
`np.where` performs follows IEEE semantics: any comparison with NaN is
false, so the comparison helpers below return `false` on `none`.  The
`np.where` chains then always yield a concrete small integer, and
`pd.isna` applied to an element of the resulting integer array is always
`False` — embedded as `isna_int`. -/

/-- `x < c` under NaN-is-false comparison semantics. -/
def olt (x : Option ℚ) (c : ℚ) : Bool :=
  match x with
  | some v => decide (v < c)
  | none => false

/-- `x > c` under NaN-is-false comparison semantics. -/
def ogt (x : Option ℚ) (c : ℚ) : Bool :=
  match x with
  | some v => decide (c < v)
  | none => false

/-- `x <= c` under NaN-is-false comparison semantics. -/
def ole (x : Option ℚ) (c : ℚ) : Bool :=
  match x with
  | some v => decide (v ≤ c)
  | none => false

/-- `x >= c` under NaN-is-false comparison semantics. -/
def oge (x : Option ℚ) (c : ℚ) : Bool :=
  match x with
  | some v => decide (c ≤ v)
  | none => false

/-- `x > y` for two possibly-NaN values. -/
def ogt2 (x y : Option ℚ) : Bool :=
  match x, y with
  | some v, some w => decide (w < v)
  | _, _ => false

/-- `x < y` for two possibly-NaN values. -/
def olt2 (x y : Option ℚ) : Bool :=
  match x, y with
  | some v, some w => decide (v < w)
  | _, _ => false

/-- One time step's indicator readings (one row of the input DataFrame);
`none` is a NaN entry. -/
structure FeatureRow where
  close : Option ℚ
  volatility : Option ℚ
  rsi : Option ℚ
  volume_norm : Option ℚ
  macd : Option ℚ
  macd_signal : Option ℚ
  adx : Option ℚ
  stoch_k : Option ℚ
deriving DecidableEq

/-- The all-NaN row (also the `getD` default, never reached in range). -/
def nan_row : FeatureRow :=
  ⟨none, none, none, none, none, none, none, none⟩

instance : Inhabited FeatureRow := ⟨nan_row⟩

/-- `data['Close'].pct_change(5)` at position `i`: NaN for the first five
steps or when an endpoint is NaN (a zero base price, which numpy would
turn into ±inf, is modelled as missing as well). -/
def pct_change5 (closes : List (Option ℚ)) (i : ℕ) : Option ℚ :=
  if i < 5 then none
  else
    match closes.getD (i - 5) none, closes.getD i none with
    | some p, some c => if p = 0 then none else some ((c - p) / p)
    | _, _ => none

/-- The trend bucket: `np.where(pc > 0.02, 2, np.where(pc < -0.02, 0, 1))`. -/
def trend_bucket (pc : Option ℚ) : ℕ :=
  if ogt pc (1 / 50) then 2 else if olt pc (-1 / 50) then 0 else 1

/-- A percentile bucket `np.where(x <= q33, 0, np.where(x <= q67, 1, 2))`
(used for volatility and normalized volume; the two quantile cutoffs are
computed upstream from the column and passed in here). -/
def tercile_bucket (q33 q67 : ℚ) (x : Option ℚ) : ℕ :=
  if ole x q33 then 0 else if ole x q67 then 1 else 2

/-- The RSI bucket: `np.where(rsi < 20, 0, np.where(rsi >= 80, 2, 1))`. -/
def rsi_bucket (x : Option ℚ) : ℕ :=
  if olt x 20 then 0 else if oge x 80 then 2 else 1

/-- The MACD bucket: `np.where(macd > sig, 2, np.where(macd < sig, 0, 1))`. -/
def macd_bucket (m s : Option ℚ) : ℕ :=
  if ogt2 m s then 2 else if olt2 m s then 0 else 1

/-- The ADX bucket: `np.where(adx < 25, 0, np.where(adx <= 50, 1, 2))`. -/
def adx_bucket (x : Option ℚ) : ℕ :=
  if olt x 25 then 0 else if ole x 50 then 1 else 2

/-- The stochastic bucket: `np.where(k < 20, 0, np.where(k <= 80, 1, 2))`. -/
def stoch_bucket (x : Option ℚ) : ℕ :=
  if olt x 20 then 0 else if ole x 80 then 1 else 2

/-- The state label `T{t}_V{v}_R{r}_O{o}_M{m}_A{a}_S{s}` as the tuple of
its seven bucket codes (the string encoding is a bijection onto these). -/
def StateKey : Type := ℕ × ℕ × ℕ × ℕ × ℕ × ℕ × ℕ

/-- `pd.isna` applied to an element of an integer numpy array: the
`np.where` chains above return int arrays, on which `pd.isna` is
identically `False` — so the source's skip guard can never fire. -/
def isna_int (_ : ℕ) : Bool := false

/-- `define_states`: one `(index, state_key)` entry per time step that
passes the (vacuous) `pd.isna` guard. -/
def define_states (q33v q67v q33o q67o : ℚ) (rows : List FeatureRow) :
    List (ℕ × StateKey) :=
  let closes := rows.map (fun r => r.close)
  (List.range rows.length).filterMap (fun i =>
    let r := rows.getD i nan_row
    let t := trend_bucket (pct_change5 closes i)
    let v := tercile_bucket q33v q67v r.volatility
    let rs := rsi_bucket r.rsi
    let o := tercile_bucket q33o q67o r.volume_norm
    let m := macd_bucket r.macd r.macd_signal
    let a := adx_bucket r.adx
    let s := stoch_bucket r.stoch_k
    if isna_int t || isna_int v || isna_int rs || isna_int o
        || isna_int m || isna_int a || isna_int s then none
    else some (i, (t, v, rs, o, m, a, s)))

/-! ### FractalAnalyzer: TimeframeAnalysis._calculate_hurst_exponent
(src/modules/timeframe_analysis.py lines 226-280).  Prices are exact
rationals; window statistics are rational except the standard deviation
(a real square root) and the logarithmic regression. -/

/-- `prices.pct_change().dropna()` (prices are assumed nonzero; a zero
price would give numpy ±inf, outside the modelled domain). -/
def pct_change_1 (ps : List ℚ) : List ℚ :=
  (ps.zip ps.tail).map (fun p => (p.2 - p.1) / p.1)

/-- `returns[:n_windows*w].reshape(n_windows, w)`: the `len/w` full
non-overlapping windows of size `w`. -/
def windows_of (w : ℕ) (l : List ℚ) : List (List ℚ) :=
  (List.range (l.length / w)).map (fun k => (l.drop (k * w)).take w)

/-- `np.mean(w)`. -/
def win_mean (l : List ℚ) : ℚ :=
  l.sum / (l.length : ℚ)

/-- `w - np.mean(w)`. -/
def win_devs (l : List ℚ) : List ℚ :=
  l.map (fun x => x - win_mean l)

/-- `np.cumsum(deviations)`. -/
def cumsum (l : List ℚ) : List ℚ :=
  (List.range l.length).map (fun k => (l.take (k + 1)).sum)

/-- `np.max` of a list (the head seeds the fold; lists here are nonempty). -/
def list_max (l : List ℚ) : ℚ :=
  l.foldl max (l.headD 0)

/-- `np.min` of a list. -/
def list_min (l : List ℚ) : ℚ :=
  l.foldl min (l.headD 0)

/-- `R = np.max(cumulative) - np.min(cumulative)`. -/
def win_R (l : List ℚ) : ℚ :=
  list_max (cumsum (win_devs l)) - list_min (cumsum (win_devs l))

/-- The variance under `np.std` (population, ddof=0): `S = sqrt(win_var)`. -/
def win_var (l : List ℚ) : ℚ :=
  ((win_devs l).map (fun x => x ^ 2)).sum / (l.length : ℚ)

/-- `R / S` for one window. -/
noncomputable def win_rs (l : List ℚ) : ℝ :=
  (win_R l : ℝ) / Real.sqrt (win_var l : ℝ)

/-- The windows passing `len(w) > 1 and S > 0` (the standard deviation is
positive exactly when the rational variance is). -/
def usable_windows (w : ℕ) (rets : List ℚ) : List (List ℚ) :=
  (windows_of w rets).filter (fun win => 1 < win.length ∧ 0 < win_var win)

/-- `np.mean(rs_values)` for one scale. -/
noncomputable def mean_rs (w : ℕ) (rets : List ℚ) : ℝ :=
  ((usable_windows w rets).map win_rs).sum / ((usable_windows w rets).length : ℝ)

/-- The usable scales (`scales` in the source): window sizes from
`[2,4,8,16,32]` that fit the series (`n_windows > 0` is the same check as
`len(returns) >= window` for these positive sizes) and produce at least
one `R/S` value. -/
def scale_list (rets : List ℚ) : List ℕ :=
  [2, 4, 8, 16, 32].filter (fun w => w ≤ rets.length ∧ usable_windows w rets ≠ [])

/-- The `(scale, mean R/S)` pairs (`scales`/`ranges` in the source). -/
noncomputable def scale_data (rets : List ℚ) : List (ℕ × ℝ) :=
  (scale_list rets).map (fun w => (w, mean_rs w rets))

/-- The least-squares slope of `log(scale)` against `log(mean R/S)`,
written exactly as the source's regression formula. -/
noncomputable def slope_of (sd : List (ℕ × ℝ)) : ℝ :=
  let xs := sd.map (fun p => Real.log (p.1 : ℝ))
  let ys := sd.map (fun p => Real.log p.2)
  let n : ℝ := (sd.length : ℝ)
  (n * ((xs.zip ys).map (fun q => q.1 * q.2)).sum - xs.sum * ys.sum) /
    (n * (xs.map (fun x => x ^ 2)).sum - xs.sum ^ 2)

/-- `_calculate_hurst_exponent`: 0.5 when the return series is shorter
than the largest window (the early exit `len(returns) < max(windows)`),
the regression slope when at least two usable scales exist, 0.5
otherwise. -/
noncomputable def calculate_hurst_exponent (ps : List ℚ) : ℝ :=
  let rets := pct_change_1 ps
  if rets.length < 32 then 1 / 2
  else if 2 ≤ (scale_data rets).length then slope_of (scale_data rets) else 1 / 2

/-! ### Concrete instances used by the claims' scenarios. -/

/-- The two-state alphabet (0 = `A`, 1 = `B`). -/
def names01 : List ℕ := [0, 1]

/-- The absorbing chain of spec scenario 2: `A→B (1.0), B→B (1.0)`. -/
def P_absorbing : ℕ → ℕ → ℚ :=
  fun i j => if i = 0 ∧ j = 1 then 1 else if i = 1 ∧ j = 1 then 1 else 0

/-- The 2-state identity matrix (two absorbing states). -/
def P_identity : ℕ → ℕ → ℚ :=
  fun i j => if i = j then 1 else 0

/-- The chain of spec scenario 1: `A→A (0.9), A→B (0.1), B→A (0.4),
B→B (0.6)`. -/
def P_two_state : ℕ → ℕ → ℚ :=
  fun i j =>
    if i = 0 ∧ j = 0 then 9 / 10
    else if i = 0 ∧ j = 1 then 1 / 10
    else if i = 1 ∧ j = 0 then 2 / 5
    else if i = 1 ∧ j = 1 then 3 / 5
    else 0

/-- A concrete eigenvector of `P_two_state.T` for eigenvalue 1. -/
noncomputable def eig_vec_41 : ℕ → ℝ :=
  fun a => if a = 0 then 4 else 1

/-- The alternating price series 4,8,4,8,4 (returns `[1, -1/2, 1, -1/2]`). -/
def prices_alt : List ℚ := [4, 8, 4, 8, 4]

/-! ## Helper lemmas about the estimator's alphabet and row sums -/

theorem state_names_nodup (seq : List α) : (state_names seq).Nodup :=
  (List.perm_insertionSort (· ≤ ·) seq.dedup).nodup_iff.mpr seq.nodup_dedup

theorem mem_state_names {seq : List α} {a : α} : a ∈ state_names seq ↔ a ∈ seq := by
  unfold state_names
  rw [(List.perm_insertionSort (· ≤ ·) seq.dedup).mem_iff, List.mem_dedup]

theorem sum_over_names (seq : List α) (f : α → ℚ) :
    ((state_names seq).map f).sum = ∑ x in (state_names seq).toFinset, f x :=
  (List.sum_toFinset f (state_names_nodup seq)).symm

theorem adj_pairs_snd_mem {seq : List α} {p : α × α} (hp : p ∈ adj_pairs seq) : p.2 ∈ seq :=
  List.mem_of_mem_tail (List.of_mem_zip hp).2

theorem adj_pairs_fst_mem {seq : List α} {p : α × α} (hp : p ∈ adj_pairs seq) : p.1 ∈ seq :=
  (List.of_mem_zip hp).1

theorem countP_pair_sum (a : α) (s : Finset α) :
    ∀ l : List (α × α), (∀ p ∈ l, p.2 ∈ s) →
      (∑ b in s, l.countP (fun p => decide (p = (a, b)))) = l.countP (fun p => decide (p.1 = a))
  | [], _ => by simp
  | p :: l, h => by
    have ih := countP_pair_sum a s l (fun q hq => h q (List.mem_cons_of_mem _ hq))
    have hp2 : p.2 ∈ s := h p (List.mem_cons_self _ _)
    simp only [List.countP_cons, decide_eq_true_eq]
    rw [Finset.sum_add_distrib, ih]
    congr 1
    by_cases hpa : p.1 = a
    · have : ∀ b ∈ s, (if p = (a, b) then (1 : ℕ) else 0) = if b = p.2 then 1 else 0 := by
        intro b _
        by_cases hb : b = p.2
        · subst hb
          simp [Prod.ext_iff, hpa]
        · have hne : ¬ p = (a, b) := by
            intro hc
            apply hb
            rw [hc]
          simp [hne, hb]
      rw [Finset.sum_congr rfl this, Finset.sum_ite_eq' s p.2 (fun _ => 1)]
      simp [hp2, hpa]
    · have : ∀ b ∈ s, (if p = (a, b) then (1 : ℕ) else 0) = 0 := by
        intro b _
        have : ¬ p = (a, b) := fun hc => hpa (by rw [hc])
        simp [this]
      rw [Finset.sum_congr rfl this]
      simp [hpa]

theorem sum_trans_count (seq : List α) (a : α) :
    (∑ b in (state_names seq).toFinset, trans_count seq a b) = row_total seq a := by
  unfold trans_count row_total
  exact countP_pair_sum a _ (adj_pairs seq) (fun p hp =>
    List.mem_toFinset.mpr (mem_state_names.mpr (adj_pairs_snd_mem hp)))

theorem transition_matrix_nonneg (seq : List α) (a b : α) :
    0 ≤ transition_matrix seq a b := by
  unfold transition_matrix
  split
  · positivity
  · exact le_refl 0

theorem row_sum_of_pos {seq : List α} {a : α} (h : 0 < row_total seq a) :
    row_sum seq a = 1 := by
  unfold row_sum
  rw [sum_over_names]
  have : ∀ b ∈ (state_names seq).toFinset,
      transition_matrix seq a b = (trans_count seq a b : ℚ) / (row_total seq a : ℚ) := by
    intro b _
    unfold transition_matrix
    rw [if_pos h]
  rw [Finset.sum_congr rfl this, ← Finset.sum_div]
  have hcast : (∑ b in (state_names seq).toFinset, (trans_count seq a b : ℚ))
      = ((row_total seq a : ℕ) : ℚ) := by
    rw [← Nat.cast_sum, sum_trans_count]
  rw [hcast]
  exact div_self (by exact_mod_cast Nat.pos_iff_ne_zero.mp h)

theorem row_sum_of_zero {seq : List α} {a : α} (h : row_total seq a = 0) :
    row_sum seq a = 0 := by
  unfold row_sum
  have hf : transition_matrix seq a = fun _ => 0 := by
    funext b
    unfold transition_matrix
    rw [if_neg (by omega)]
  rw [hf]
  simp

/-- Claim C5: in the matrix returned by `build_transition_matrix`, every
row whose state has at least one observed outgoing transition sums to 1
(in particular within the 1e-9 tolerance), every row whose state has none
sums to exactly 0, and all entries are non-negative. -/
theorem C5_row_stochasticity (seq : List α) (a : α) (ha : a ∈ state_names seq) :
    (0 < row_total seq a → row_sum seq a = 1) ∧
    (row_total seq a = 0 → row_sum seq a = 0) ∧
    (∀ b : α, 0 ≤ transition_matrix seq a b) := by
  clear ha
  exact ⟨fun h => row_sum_of_pos h, fun h => row_sum_of_zero h,
    fun b => transition_matrix_nonneg seq a b⟩

/-- Witness for C5 at the observed sequence `[0, 1, 0]` and state `0`. -/
theorem C5_witness :
    (0 < row_total ([0, 1, 0] : List ℕ) 0 → row_sum ([0, 1, 0] : List ℕ) 0 = 1) ∧
    (row_total ([0, 1, 0] : List ℕ) 0 = 0 → row_sum ([0, 1, 0] : List ℕ) 0 = 0) ∧
    (∀ b : ℕ, 0 ≤ transition_matrix ([0, 1, 0] : List ℕ) 0 b) :=
  C5_row_stochasticity [0, 1, 0] 0 (by decide)

/-! ## Helper lemmas about the forward propagation -/

theorem rec_sum_mk_prediction (ns : List α) (k : ℕ) (v : α → ℚ) (dflt : α) :
    rec_sum (mk_prediction ns k v dflt) = dist_sum ns v := by
  simp only [rec_sum, mk_prediction, dist_sum, List.map_map]
  rfl

theorem dist_sum_init {seq : List α} {start : α} (h : start ∈ state_names seq) :
    dist_sum (state_names seq) (init_dist start) = 1 := by
  unfold dist_sum init_dist
  rw [sum_over_names]
  rw [Finset.sum_ite_eq' ((state_names seq).toFinset) start (fun _ => 1)]
  simp [List.mem_toFinset.mpr h]

theorem dist_sum_step_vec (seq : List α) (v : α → ℚ) :
    dist_sum (state_names seq) (step_vec (state_names seq) (transition_matrix seq) v)
      = ∑ a in (state_names seq).toFinset, v a * row_sum seq a := by
  unfold dist_sum step_vec
  rw [sum_over_names]
  have inner : ∀ b ∈ (state_names seq).toFinset,
      ((state_names seq).map (fun a => v a * transition_matrix seq a b)).sum
        = ∑ a in (state_names seq).toFinset, v a * transition_matrix seq a b := by
    intro b _
    exact sum_over_names seq _
  rw [Finset.sum_congr rfl inner, Finset.sum_comm]
  apply Finset.sum_congr rfl
  intro a _
  rw [row_sum, sum_over_names, Finset.mul_sum]

theorem zero_row_mass_eq (seq : List α) (v : α → ℚ) :
    zero_row_mass seq v
      = ∑ a in (state_names seq).toFinset.filter (fun a => row_total seq a = 0), v a := by
  unfold zero_row_mass
  have hnd : ((state_names seq).filter (fun a => row_total seq a = 0)).Nodup :=
    (state_names_nodup seq).filter _
  rw [← List.sum_toFinset v hnd, List.toFinset_filter]
  apply Finset.sum_congr
  · apply Finset.filter_congr
    intro a _
    simp
  · intro a _
    rfl

theorem dist_sum_step_mass (seq : List α) (v : α → ℚ) :
    dist_sum (state_names seq) (step_vec (state_names seq) (transition_matrix seq) v)
      = dist_sum (state_names seq) v - zero_row_mass seq v := by
  rw [dist_sum_step_vec, zero_row_mass_eq]
  have split : ∀ a ∈ (state_names seq).toFinset,
      v a * row_sum seq a = if ¬ row_total seq a = 0 then v a else 0 := by
    intro a _
    by_cases h : row_total seq a = 0
    · rw [row_sum_of_zero h]
      simp [h]
    · rw [row_sum_of_pos (Nat.pos_of_ne_zero h)]
      simp [h]
  rw [Finset.sum_congr rfl split, ← Finset.sum_filter (fun a => ¬ row_total seq a = 0) v]
  have total := Finset.sum_filter_add_sum_filter_not
    ((state_names seq).toFinset) (fun a => row_total seq a = 0) v
  unfold dist_sum
  rw [sum_over_names]
  linarith

theorem step_dist_nonneg (seq : List α) (start : α) :
    ∀ (k : ℕ) (a : α), 0 ≤ step_dist (state_names seq) (transition_matrix seq) start k a := by
  intro k
  induction k with
  | zero =>
    intro a
    unfold step_dist init_dist
    split <;> norm_num
  | succ m ih =>
    intro a
    show 0 ≤ step_vec (state_names seq) (transition_matrix seq)
      (step_dist (state_names seq) (transition_matrix seq) start m) a
    unfold step_vec
    apply List.sum_nonneg
    intro x hx
    rcases List.mem_map.mp hx with ⟨b, _, rfl⟩
    exact mul_nonneg (ih b) (transition_matrix_nonneg seq b a)

theorem zero_row_mass_nonneg (seq : List α) (start : α) (k : ℕ) :
    0 ≤ zero_row_mass seq (step_dist (state_names seq) (transition_matrix seq) start k) := by
  unfold zero_row_mass
  apply List.sum_nonneg
  intro x hx
  rcases List.mem_map.mp hx with ⟨b, _, rfl⟩
  exact step_dist_nonneg seq start k b

theorem dist_sum_step_dist_one (seq : List α) (start : α)
    (hrows : ∀ a ∈ state_names seq, 0 < row_total seq a)
    (hstart : start ∈ state_names seq) :
    ∀ k : ℕ, dist_sum (state_names seq) (step_dist (state_names seq) (transition_matrix seq) start k) = 1 := by
  intro k
  induction k with
  | zero => exact dist_sum_init hstart
  | succ m ih =>
    show dist_sum (state_names seq) (step_vec (state_names seq) (transition_matrix seq) _) = 1
    rw [dist_sum_step_vec]
    have : ∀ a ∈ (state_names seq).toFinset,
        step_dist (state_names seq) (transition_matrix seq) start m a * row_sum seq a
          = step_dist (state_names seq) (transition_matrix seq) start m a := by
      intro a ha
      rw [row_sum_of_pos (hrows a (List.mem_toFinset.mp ha)), mul_one]
    rw [Finset.sum_congr rfl this, ← sum_over_names]
    exact ih

/-- Claim C4 (amended): for every matrix built by the estimator in which
every observed state has at least one observed outgoing transition (no
all-zero rows), every starting state of the alphabet and every step count,
the full probability vector recorded at each step of
`predict_next_states` sums to exactly 1 (in particular within 1e-9). -/
theorem C4_conservation (seq : List α) (start : α) (steps : ℕ)
    (hrows : ∀ a ∈ state_names seq, 0 < row_total seq a)
    (hstart : start ∈ state_names seq) :
    (predict_records (state_names seq) (transition_matrix seq) start steps).map rec_sum
      = List.replicate steps 1 := by
  rw [List.eq_replicate_iff]
  constructor
  · simp [predict_records]
  · intro b hb
    rcases List.mem_map.mp hb with ⟨r, hr, rfl⟩
    rcases List.mem_map.mp hr with ⟨k, _, rfl⟩
    rw [rec_sum_mk_prediction]
    exact dist_sum_step_dist_one seq start hrows hstart (k + 1)

/-- Witness for C4 at the sequence `[0, 1, 0]` (both rows observed),
start `0`, 3 steps. -/
theorem C4_witness :
    (predict_records (state_names ([0, 1, 0] : List ℕ)) (transition_matrix [0, 1, 0]) 0 3).map rec_sum
      = List.replicate 3 1 :=
  C4_conservation [0, 1, 0] 0 3 (by decide) (by decide)

/-- Counterexample to C4 as stated: the estimator-built matrix of the
observed sequence `[0, 1]` has an all-zero row for state `1`; predicting
2 steps from the in-alphabet state `0` records step vectors whose totals
are `[1, 0]`, and the step-2 total 0 is not within 1e-9 of 1. -/
theorem C4_counterexample :
    0 ∈ state_names ([0, 1] : List ℕ) ∧
    (predict_records (state_names ([0, 1] : List ℕ)) (transition_matrix [0, 1]) 0 2).map rec_sum
      = [1, 0] ∧
    ¬ (∀ r ∈ predict_records (state_names ([0, 1] : List ℕ)) (transition_matrix [0, 1]) 0 2,
        |rec_sum r - 1| ≤ 1 / 1000000000) := by
  have heval : (predict_records (state_names ([0, 1] : List ℕ)) (transition_matrix [0, 1]) 0 2).map rec_sum
      = [1, 0] := by
    norm_num [predict_records, state_names, List.insertionSort, List.orderedInsert, List.dedup,
      List.range_succ, mk_prediction, rec_sum, step_dist, step_vec, init_dist,
      transition_matrix, trans_count, row_total, adj_pairs]
  refine ⟨by decide, heval, fun hall => ?_⟩
  have hmem : mk_prediction (state_names ([0, 1] : List ℕ)) 2
      (step_dist (state_names ([0, 1] : List ℕ)) (transition_matrix [0, 1]) 0 2) 0
      ∈ predict_records (state_names ([0, 1] : List ℕ)) (transition_matrix [0, 1]) 0 2 := by
    simp [predict_records, List.range_succ]
  have h2 := hall _ hmem
  rw [rec_sum_mk_prediction] at h2
  have hzero : dist_sum (state_names ([0, 1] : List ℕ))
      (step_dist (state_names ([0, 1] : List ℕ)) (transition_matrix [0, 1]) 0 2) = 0 := by
    norm_num [dist_sum, state_names, List.insertionSort, List.orderedInsert, List.dedup,
      step_dist, step_vec, init_dist, transition_matrix, trans_count, row_total, adj_pairs]
  rw [hzero] at h2
  norm_num at h2

/-- Claim C8: on a built transition matrix, `predict_next_states` raises
(returns `none`) exactly when the starting state is not in the matrix's
alphabet, and on the error path no forecast records are produced. -/
theorem C8_unknown_state_error (seq : List α) (start : α) (steps : ℕ) :
    (start ∈ state_names seq →
      predict_next_states (state_names seq) (transition_matrix seq) start steps
        = some (predict_records (state_names seq) (transition_matrix seq) start steps)) ∧
    (start ∉ state_names seq →
      predict_next_states (state_names seq) (transition_matrix seq) start steps = none) := by
  constructor
  · intro h
    simp [predict_next_states, h]
  · intro h
    simp [predict_next_states, h]

/-- Claim C10: starting from any state of the alphabet, every entry of the
propagated probability vector is non-negative at every recorded step, and
the vector's total never increases from one step to the next; the exact
mass lost in one step is the mass sitting on all-zero rows. -/
theorem C10_mass_monotone (seq : List α) (start : α) (steps : ℕ)
    (hstart : start ∈ state_names seq) :
    (∀ r ∈ predict_records (state_names seq) (transition_matrix seq) start steps,
        ∀ p ∈ r.all_probabilities, 0 ≤ p.2) ∧
    (∀ k : ℕ,
        dist_sum (state_names seq) (step_dist (state_names seq) (transition_matrix seq) start (k + 1))
          ≤ dist_sum (state_names seq) (step_dist (state_names seq) (transition_matrix seq) start k)) ∧
    (∀ k : ℕ,
        dist_sum (state_names seq) (step_dist (state_names seq) (transition_matrix seq) start (k + 1))
          = dist_sum (state_names seq) (step_dist (state_names seq) (transition_matrix seq) start k)
            - zero_row_mass seq (step_dist (state_names seq) (transition_matrix seq) start k)) := by
  clear hstart
  refine ⟨?_, ?_, ?_⟩
  · intro r hr p hp
    rcases List.mem_map.mp hr with ⟨k, _, rfl⟩
    have : p ∈ (state_names seq).map (fun a =>
        (a, step_dist (state_names seq) (transition_matrix seq) start (k + 1) a)) := hp
    rcases List.mem_map.mp this with ⟨b, _, rfl⟩
    exact step_dist_nonneg seq start (k + 1) b
  · intro k
    have hmass := dist_sum_step_mass seq
      (step_dist (state_names seq) (transition_matrix seq) start k)
    have hnn := zero_row_mass_nonneg seq start k
    show dist_sum (state_names seq) (step_vec (state_names seq) (transition_matrix seq) _)
      ≤ dist_sum (state_names seq) (step_dist (state_names seq) (transition_matrix seq) start k)
    linarith
  · intro k
    exact dist_sum_step_mass seq (step_dist (state_names seq) (transition_matrix seq) start k)

/-- Witness for C10 at the sequence `[0, 1]`, start `0`, 2 steps. -/
theorem C10_witness :
    (∀ r ∈ predict_records (state_names ([0, 1] : List ℕ)) (transition_matrix [0, 1]) 0 2,
        ∀ p ∈ r.all_probabilities, 0 ≤ p.2) ∧
    (∀ k : ℕ,
        dist_sum (state_names ([0, 1] : List ℕ)) (step_dist (state_names ([0, 1] : List ℕ)) (transition_matrix [0, 1]) 0 (k + 1))
          ≤ dist_sum (state_names ([0, 1] : List ℕ)) (step_dist (state_names ([0, 1] : List ℕ)) (transition_matrix [0, 1]) 0 k)) ∧
    (∀ k : ℕ,
        dist_sum (state_names ([0, 1] : List ℕ)) (step_dist (state_names ([0, 1] : List ℕ)) (transition_matrix [0, 1]) 0 (k + 1))
          = dist_sum (state_names ([0, 1] : List ℕ)) (step_dist (state_names ([0, 1] : List ℕ)) (transition_matrix [0, 1]) 0 k)
            - zero_row_mass [0, 1] (step_dist (state_names ([0, 1] : List ℕ)) (transition_matrix [0, 1]) 0 k)) :=
  C10_mass_monotone [0, 1] 0 2 (by decide)

/-! ## The frame claim and the graph/hitting-time scenarios -/

/-- Claim C9: none of the analyzer operations modifies the transition
matrix it receives: each state transformer returns a state whose chain
(alphabet and matrix entries) is identical to the one it was given, for
every eigen/solve oracle, every state, every target set, every starting
state and every step count.  (The cache fields the source does write are
updated in the returned state; the matrix is not among them.) -/
theorem C9_no_matrix_mutation (eig : (α → α → ℚ) → α → ℝ)
    (solve : (α → α → ℚ) → (α → ℚ) → Option (α → ℚ))
    (s : AnalysisState α) (targets : List α) (c : ChainState α) (start : α) (steps : ℕ) :
    (analyze_stationarity_m eig s).1.chain = s.chain ∧
    (find_absorption_states_m s).1.chain = s.chain ∧
    (find_communication_classes_m s).1.chain = s.chain ∧
    (calculate_hitting_times_m solve targets s).1.chain = s.chain ∧
    (predict_next_states_m c start steps).1 = c := by
  refine ⟨?_, ?_, ?_, ?_, ?_⟩
  · rcases h : s.chain.transition_matrix with _ | P <;>
      simp [analyze_stationarity_m, h]
  · rcases h : s.chain.transition_matrix with _ | P <;>
      simp [find_absorption_states_m, h]
  · rcases h : s.chain.transition_matrix with _ | P <;>
      simp [find_communication_classes_m, h]
  · rcases h : s.chain.transition_matrix with _ | P <;>
      simp [calculate_hitting_times_m, h]
  · rcases h : c.transition_matrix with _ | P <;>
      simp [predict_next_states_m, h]

/-- Counterexample to C1 as stated: on the absorbing chain `A→B (1.0),
B→B (1.0)` the GraphAnalyzer does report `B` (index 1) as the only
absorbing state, but its weak-connectivity DFS merges `A` with `B`
(because `P[A][B] > 0`), returning a single communication class rather
than the two classes `{A}`, `{B}` the claim asserts. -/
theorem C1_counterexample :
    find_absorption_states names01 P_absorbing = [1] ∧
    (find_communication_classes names01 P_absorbing).length = 1 := by
  constructor
  · norm_num [find_absorption_states, names01, P_absorbing, List.filter]
  · norm_num [find_communication_classes, names01, P_absorbing, dfs_collect]

/-- Claim C1 (amended): on the absorbing chain `A→B (1.0), B→B (1.0)` the
GraphAnalyzer reports exactly `B` as absorbing and returns exactly one
communication class, `{A, B}`, since its undirected (weak-connectivity)
adjacency joins `A` and `B` through the positive entry `P[A][B]`. -/
theorem C1_absorbing_and_weak_class :
    find_absorption_states names01 P_absorbing = [1] ∧
    find_communication_classes names01 P_absorbing = [[0, 1]] := by
  constructor
  · norm_num [find_absorption_states, names01, P_absorbing, List.filter]
  · norm_num [find_communication_classes, names01, P_absorbing, dfs_collect]

/-- Claim C2: `define_states` was meant to skip any time step with a NaN
feature (the spec's contract), but the `pd.isna` guard inspects the
integer output of `np.where` and can never fire: a time step whose every
indicator is NaN still receives the state `T1_V2_R1_O2_M1_A2_S2`. -/
theorem C2_nan_step_gets_state :
    define_states 0 0 0 0 [nan_row] = [(0, ((1, 2, 1, 2, 1, 2, 2) : StateKey))] := by
  norm_num [define_states, nan_row, isna_int, trend_bucket, tercile_bucket, rsi_bucket,
    macd_bucket, adx_bucket, stoch_bucket, pct_change5, olt, ogt, ole, oge, olt2, ogt2,
    List.range_succ, List.filterMap]

theorem fallback_loop_target_one (ns : List α) (P : α → α → ℚ) (targets : List α) :
    ∀ (k : ℕ) (h : α → ℚ), (∀ t ∈ targets, h t = 1) →
      ∀ t ∈ targets, fallback_loop ns P targets k h t = 1
  | 0, h, hh => hh
  | k + 1, h, hh => by
    intro t ht
    show (if allclose_vec ns h (fallback_step ns P targets h) then h
      else fallback_loop ns P targets k (fallback_step ns P targets h)) t = 1
    split
    · exact hh t ht
    · exact fallback_loop_target_one ns P targets k (fallback_step ns P targets h)
        (fun u hu => by simp [fallback_step, hu]) t ht

/-- Claim C3 evaluated at the failing input: for the 2-state identity
matrix with target set `{0}`, the direct system is singular (row 1 of the
rewritten coefficient matrix is all zero, so no solution exists and
`np.linalg.solve` raises), and the iterative fallback then returns
hitting time 1 — not 0 — for the target state `0`, because each fallback
iteration starts from `np.ones(n)` and never overwrites target entries. -/
theorem C3_fallback_breaks_base_case :
    hitting_A P_identity [0] 1 0 = 0 ∧
    hitting_A P_identity [0] 1 1 = 0 ∧
    hitting_times_fallback names01 P_identity [0] 0 = 1 := by
  refine ⟨by norm_num [hitting_A, P_identity], by norm_num [hitting_A, P_identity], ?_⟩
  unfold hitting_times_fallback
  rw [show (1000 : ℕ) = 999 + 1 from rfl]
  show (if allclose_vec names01 (fun _ => 0) (fallback_step names01 P_identity [0] (fun _ => 0))
    then (fun _ => (0 : ℚ))
    else fallback_loop names01 P_identity [0] 999
      (fallback_step names01 P_identity [0] (fun _ => 0))) 0 = 1
  rw [if_neg]
  · exact fallback_loop_target_one names01 P_identity [0] 999 _
      (fun u hu => by simp [fallback_step, hu]) 0 (by norm_num)
  · intro hclose
    have h0 := hclose 0 (by norm_num [names01])
    norm_num [fallback_step, P_identity] at h0

/-! ## The two-state stationarity scenario (C6): numeric log bounds -/

theorem log_five_fourths_bounds :
    (0.2228 : ℝ) < Real.log (5 / 4) ∧ Real.log (5 / 4) < 0.2235 := by
  have hc : ((5 / 4 : ℝ)) ^ 16 = 2 ^ 5 * (152587890625 / 137438953472) := by norm_num
  have hkey : 16 * Real.log (5 / 4)
      = 5 * Real.log 2 + Real.log ((152587890625 : ℝ) / 137438953472) := by
    have h1 : Real.log ((5 / 4 : ℝ) ^ 16) = (16 : ℕ) * Real.log (5 / 4) := Real.log_pow _ _
    have h2 : Real.log ((2 : ℝ) ^ 5 * (152587890625 / 137438953472))
        = Real.log ((2 : ℝ) ^ 5) + Real.log ((152587890625 : ℝ) / 137438953472) :=
      Real.log_mul (by norm_num) (by norm_num)
    have h3 : Real.log ((2 : ℝ) ^ 5) = (5 : ℕ) * Real.log 2 := Real.log_pow _ _
    have h4 := h1.symm.trans (by rw [hc, h2, h3])
    push_cast at h4
    linarith
  have hcu : Real.log ((152587890625 : ℝ) / 137438953472) ≤ 152587890625 / 137438953472 - 1 :=
    Real.log_le_sub_one_of_pos (by norm_num)
  have hcl : 1 - ((152587890625 : ℝ) / 137438953472)⁻¹
      ≤ Real.log ((152587890625 : ℝ) / 137438953472) := by
    have h := Real.log_le_sub_one_of_pos (show (0 : ℝ) < ((152587890625 : ℝ) / 137438953472)⁻¹ by norm_num)
    rw [Real.log_inv] at h
    linarith
  have hinv : ((152587890625 : ℝ) / 137438953472)⁻¹ = 137438953472 / 152587890625 := by
    norm_num
  rw [hinv] at hcl
  have hl2 := Real.log_two_gt_d9
  have hu2 := Real.log_two_lt_d9
  constructor <;> linarith

theorem entropy_value_bound :
    |-(4 / 5 * Real.log (4 / 5 + 1e-10) + (1 / 5 * Real.log (1 / 5 + 1e-10) + 0)) - 0.5004|
      < 1 / 1000 := by
  have hL := log_five_fourths_bounds
  have hl2 := Real.log_two_gt_d9
  have hu2 := Real.log_two_lt_d9
  have e45 : Real.log (4 / 5 + 1e-10 : ℝ)
      = -Real.log (5 / 4) + Real.log (1 + (5 / 4) * 1e-10) := by
    have harg : (4 / 5 + 1e-10 : ℝ) = (4 / 5) * (1 + (5 / 4) * 1e-10) := by norm_num
    have h45 : Real.log ((4 : ℝ) / 5) = -Real.log (5 / 4) := by
      have h : ((4 : ℝ) / 5) = ((5 : ℝ) / 4)⁻¹ := by norm_num
      rw [h, Real.log_inv]
    rw [harg, Real.log_mul (by norm_num) (by norm_num), h45]
  have e15 : Real.log (1 / 5 + 1e-10 : ℝ)
      = -(Real.log (5 / 4) + 2 * Real.log 2) + Real.log (1 + 5 * 1e-10) := by
    have harg : (1 / 5 + 1e-10 : ℝ) = (1 / 5) * (1 + 5 * 1e-10) := by norm_num
    have h5 : Real.log (5 : ℝ) = Real.log (5 / 4) + 2 * Real.log 2 := by
      have h54 : (5 : ℝ) = (5 / 4) * 2 ^ 2 := by norm_num
      have hp : Real.log ((2 : ℝ) ^ 2) = (2 : ℕ) * Real.log 2 := Real.log_pow _ _
      rw [h54, Real.log_mul (by norm_num) (by norm_num), hp]
      push_cast
      ring
    have h15 : Real.log ((1 : ℝ) / 5) = -Real.log 5 := by
      have h : ((1 : ℝ) / 5) = ((5 : ℝ))⁻¹ := by norm_num
      rw [h, Real.log_inv]
    rw [harg, Real.log_mul (by norm_num) (by norm_num), h15, h5]
  have t1l : (0 : ℝ) ≤ Real.log (1 + (5 / 4) * 1e-10) := Real.log_nonneg (by norm_num)
  have t1u : Real.log (1 + (5 / 4) * 1e-10 : ℝ) ≤ (5 / 4) * 1e-10 := by
    have h := Real.log_le_sub_one_of_pos (show (0 : ℝ) < 1 + (5 / 4) * 1e-10 by norm_num)
    linarith
  have t2l : (0 : ℝ) ≤ Real.log (1 + 5 * 1e-10) := Real.log_nonneg (by norm_num)
  have t2u : Real.log (1 + 5 * 1e-10 : ℝ) ≤ 5 * 1e-10 := by
    have h := Real.log_le_sub_one_of_pos (show (0 : ℝ) < 1 + 5 * 1e-10 by norm_num)
    linarith
  rw [e45, e15, abs_lt]
  constructor <;> nlinarith

/-- Claim C6: for the two-state chain `A→A 0.9, A→B 0.1, B→A 0.4,
B→B 0.6`, every eigenvalue of `P.T` is 1 or 1/2 (so the eigenvalue
closest to 1 that `analyze_stationarity` selects is 1), and whatever
nonzero eigenvector for eigenvalue 1 the eigen-solver returns, the
abs-and-renormalize step yields exactly the stationary distribution
`[0.8, 0.2]` and the entropy `-Σ πᵢ ln(πᵢ + 1e-10)` lies within 0.001 of
0.5004 nats. -/
theorem C6_two_state_stationarity :
    (∀ (lam : ℝ) (v : ℕ → ℝ), (v 0 ≠ 0 ∨ v 1 ≠ 0) →
        (∀ a ∈ names01, t_mul_vec names01 P_two_state v a = lam * v a) →
        lam = 1 ∨ lam = 1 / 2) ∧
    (∀ v : ℕ → ℝ, (v 0 ≠ 0 ∨ v 1 ≠ 0) →
        (∀ a ∈ names01, t_mul_vec names01 P_two_state v a = v a) →
        stationary_vector names01 v 0 = 4 / 5 ∧
        stationary_vector names01 v 1 = 1 / 5 ∧
        |entropy_of names01 (stationary_vector names01 v) - 0.5004| < 1 / 1000) := by
  constructor
  · intro lam v hv heig
    have h0 := heig 0 (by norm_num [names01])
    have h1 := heig 1 (by norm_num [names01])
    norm_num [t_mul_vec, names01, P_two_state] at h0 h1
    by_cases hl1 : lam = 1
    · exact Or.inl hl1
    by_cases hl2 : lam = 1 / 2
    · exact Or.inr hl2
    exfalso
    have key0 : (lam - 1) * (lam - 1 / 2) * v 0 = 0 := by
      linear_combination (3 / 5 - lam) * h0 - (2 / 5) * h1
    have key1 : (lam - 1) * (lam - 1 / 2) * v 1 = 0 := by
      linear_combination (-(1 / 10)) * h0 + (9 / 10 - lam) * h1
    have hfac : (lam - 1) * (lam - 1 / 2) ≠ 0 :=
      mul_ne_zero (sub_ne_zero.mpr hl1) (sub_ne_zero.mpr hl2)
    rcases hv with h | h
    · exact h ((mul_eq_zero.mp key0).resolve_left hfac)
    · exact h ((mul_eq_zero.mp key1).resolve_left hfac)
  · intro v hv heig
    have h0 := heig 0 (by norm_num [names01])
    norm_num [t_mul_vec, names01, P_two_state] at h0
    have hx : v 0 = 4 * v 1 := by linarith
    have hy : v 1 ≠ 0 := by
      rcases hv with h | h
      · intro hz
        apply h
        rw [hx, hz, mul_zero]
      · exact h
    have habs : |v 0| = 4 * |v 1| := by
      rw [hx, abs_mul]
      norm_num
    have hpos : (0 : ℝ) < |v 1| := abs_pos.mpr hy
    have hsum : ((names01.map (fun b => |v b|)).sum : ℝ) = 5 * |v 1| := by
      norm_num [names01, habs]
      ring
    have h0' : stationary_vector names01 v 0 = 4 / 5 := by
      unfold stationary_vector
      rw [hsum, habs]
      field_simp
      ring
    have h1' : stationary_vector names01 v 1 = 1 / 5 := by
      unfold stationary_vector
      rw [hsum]
      field_simp
      ring
    refine ⟨h0', h1', ?_⟩
    have hE : entropy_of names01 (stationary_vector names01 v)
        = -(4 / 5 * Real.log (4 / 5 + 1e-10) + (1 / 5 * Real.log (1 / 5 + 1e-10) + 0)) := by
      have e0 : stationary_vector ([0, 1] : List ℕ) v 0 = 4 / 5 := h0'
      have e1 : stationary_vector ([0, 1] : List ℕ) v 1 = 1 / 5 := h1'
      simp only [entropy_of, names01, List.map_cons, List.map_nil, List.sum_cons,
        List.sum_nil, e0, e1]
    rw [hE]
    exact entropy_value_bound

/-- Witness for C6: the eigen-equation hypotheses discharged at the
concrete eigenvector `(4, 1)` of `P_two_state.T`. -/
theorem C6_witness :
    ((1 : ℝ) = 1 ∨ (1 : ℝ) = 1 / 2) ∧
    (stationary_vector names01 eig_vec_41 0 = 4 / 5 ∧
      stationary_vector names01 eig_vec_41 1 = 1 / 5 ∧
      |entropy_of names01 (stationary_vector names01 eig_vec_41) - 0.5004| < 1 / 1000) := by
  constructor
  · apply C6_two_state_stationarity.1 1 eig_vec_41
    · exact Or.inl (by norm_num [eig_vec_41])
    · intro a ha
      have ha' : a = 0 ∨ a = 1 := by
        simpa [names01] using ha
      rcases ha' with rfl | rfl <;>
        norm_num [t_mul_vec, names01, P_two_state, eig_vec_41]
  · apply C6_two_state_stationarity.2 eig_vec_41
    · exact Or.inl (by norm_num [eig_vec_41])
    · intro a ha
      have ha' : a = 0 ∨ a = 1 := by
        simpa [names01] using ha
      rcases ha' with rfl | rfl <;>
        norm_num [t_mul_vec, names01, P_two_state, eig_vec_41]

/-! ## The Hurst-exponent claims (C7) -/

theorem sqrt_nine_sixteenths : Real.sqrt ((9 / 16 : ℚ) : ℝ) = 3 / 4 := by
  have h : ((9 / 16 : ℚ) : ℝ) = (3 / 4 : ℝ) ^ 2 := by norm_num
  rw [h, Real.sqrt_sq (by norm_num)]

theorem win_rs_alt_two : win_rs [(1 : ℚ), -(1 / 2)] = 1 := by
  have hR : win_R [(1 : ℚ), -(1 / 2)] = 3 / 4 := by
    norm_num [win_R, cumsum, win_devs, win_mean, list_max, list_min, List.range_succ]
  have hV : win_var [(1 : ℚ), -(1 / 2)] = 9 / 16 := by
    norm_num [win_var, win_devs, win_mean]
  unfold win_rs
  rw [hR, hV, sqrt_nine_sixteenths]
  norm_num

theorem win_rs_alt_four : win_rs [(1 : ℚ), -(1 / 2), 1, -(1 / 2)] = 1 := by
  have hR : win_R [(1 : ℚ), -(1 / 2), 1, -(1 / 2)] = 3 / 4 := by
    norm_num [win_R, cumsum, win_devs, win_mean, list_max, list_min, List.range_succ]
  have hV : win_var [(1 : ℚ), -(1 / 2), 1, -(1 / 2)] = 9 / 16 := by
    norm_num [win_var, win_devs, win_mean]
  unfold win_rs
  rw [hR, hV, sqrt_nine_sixteenths]
  norm_num

theorem usable_windows_alt_two :
    usable_windows 2 [(1 : ℚ), -(1 / 2), 1, -(1 / 2)] = [[1, -(1 / 2)], [1, -(1 / 2)]] := by
  norm_num [usable_windows, windows_of, win_var, win_devs, win_mean,
    List.range_succ, List.filter]

theorem usable_windows_alt_four :
    usable_windows 4 [(1 : ℚ), -(1 / 2), 1, -(1 / 2)] = [[1, -(1 / 2), 1, -(1 / 2)]] := by
  norm_num [usable_windows, windows_of, win_var, win_devs, win_mean,
    List.range_succ, List.filter]

theorem mean_rs_alt_two : mean_rs 2 [(1 : ℚ), -(1 / 2), 1, -(1 / 2)] = 1 := by
  unfold mean_rs
  rw [usable_windows_alt_two]
  norm_num [win_rs_alt_two]

theorem mean_rs_alt_four : mean_rs 4 [(1 : ℚ), -(1 / 2), 1, -(1 / 2)] = 1 := by
  unfold mean_rs
  rw [usable_windows_alt_four]
  norm_num [win_rs_alt_four]

theorem scale_list_alt : scale_list [(1 : ℚ), -(1 / 2), 1, -(1 / 2)] = [2, 4] := by
  norm_num [scale_list, usable_windows, windows_of, win_var, win_devs, win_mean,
    List.range_succ, List.filter]
  norm_num [List.cons_ne_nil]

theorem scale_data_alt :
    scale_data [(1 : ℚ), -(1 / 2), 1, -(1 / 2)] = [(2, 1), (4, 1)] := by
  unfold scale_data
  rw [scale_list_alt]
  simp only [List.map_cons, List.map_nil, mean_rs_alt_two, mean_rs_alt_four]

theorem slope_of_alt : slope_of [((2 : ℕ), (1 : ℝ)), ((4 : ℕ), (1 : ℝ))] = 0 := by
  simp [slope_of, Real.log_one]

/-- Counterexample to C7 as stated: for the five-point price series
4,8,4,8,4 the return series `[1, -1/2, 1, -1/2]` yields two usable scales
(2 and 4), yet `_calculate_hurst_exponent` returns the 0.5 default via its
early `len(returns) < max(windows)` exit instead of the fitted slope,
which at this input equals 0 (every window has R/S = 1). -/
theorem C7_counterexample :
    calculate_hurst_exponent prices_alt = 1 / 2 ∧
    2 ≤ (scale_data (pct_change_1 prices_alt)).length ∧
    slope_of (scale_data (pct_change_1 prices_alt)) < calculate_hurst_exponent prices_alt := by
  have hret : pct_change_1 prices_alt = [1, -(1 / 2), 1, -(1 / 2)] := by
    norm_num [pct_change_1, prices_alt]
  have hh : calculate_hurst_exponent prices_alt = 1 / 2 := by
    simp only [calculate_hurst_exponent, hret]
    norm_num
  refine ⟨hh, ?_, ?_⟩
  · rw [hret, scale_data_alt]
    norm_num
  · rw [hret, scale_data_alt, slope_of_alt, hh]
    norm_num

/-- Claim C7 (amended): `_calculate_hurst_exponent` returns the
least-squares slope of `log(scale)` against `log(mean R/S)` whenever the
return series has at least 32 entries (the largest window) and at least 2
usable scales exist, and returns the random-walk default 0.5 whenever the
return series is shorter than 32 or fewer than 2 usable scales exist. -/
theorem C7_hurst_amended (ps : List ℚ) :
    calculate_hurst_exponent ps =
      if 32 ≤ (pct_change_1 ps).length ∧ 2 ≤ (scale_data (pct_change_1 ps)).length then
        slope_of (scale_data (pct_change_1 ps))
      else 1 / 2 := by
  simp only [calculate_hurst_exponent]
  by_cases h1 : (pct_change_1 ps).length < 32
  · rw [if_pos h1, if_neg]
    intro hc
    omega
  · rw [if_neg h1]
    by_cases h2 : 2 ≤ (scale_data (pct_change_1 ps)).length
    · rw [if_pos h2, if_pos ⟨by omega, h2⟩]
    · rw [if_neg h2, if_neg]
      intro hc
      exact h2 hc.2
